import Mathlib

/-!
Verification development for the `tnm_download` command-line program
(`src/tnm_download.py`).  The Python source is shallowly embedded below:
pure functions become Lean functions, the thread-pool download engine
becomes a small-step transition relation, and the `main` workflow becomes
a pure function producing a trace of observable effects together with the
process outcome.  Machine strings are modelled as Lean `String`s (Python
`str` comparison is lexicographic by code point, as is Lean's order on
`String`), byte counts as `Nat`, and values parsed by `float()` as a
type of rationals extended with NaN and the infinities, compared with
IEEE-754 semantics.
-/

namespace Tnm

/-! ## Data model

A raw catalog item as returned by the TNM API (`products_response['items']`):
it carries a download URL, an optional `sizeInBytes` field, and the list of
dataset names it belongs to. -/

structure RawItem where
  downloadURL : String
  sizeInBytes : Option Nat
  datasets : List String
deriving DecidableEq

/-- A resolved dataset: a name together with the member items, as built by
the unwinding loop in `get_available_products` (lines 81-89). -/
structure Dataset where
  name : String
  items : List RawItem
deriving DecidableEq

/-! ## `human_size` (lines 13-15)

`human_size(bytes, units)` returns `str(bytes) + units[0]` when
`bytes < 1024` and otherwise recurses with `bytes >> 10` and `units[1:]`.
When the unit list is exhausted the Python code keeps shifting (`[][1:]`
is `[]`) until the value drops below 1024 and then evaluates `[][0]`,
which raises `IndexError`; that raise is modelled as `none`.  The Lean
equations are extensionally the Python function: for an empty unit list
the Python call always ends in the `IndexError`, hence `none`. -/
def human_size (b : Nat) : List String → Option String
  | [] => none
  | u :: rest => if b < 1024 then some (toString b ++ u) else human_size (b >>> 10) rest

/-- The default `units` argument of `human_size` (line 13). -/
def defaultUnits : List String :=
  [" bytes", " KB", " MB", " GB", " TB", " PB", " EB"]

/-- Renderer described by the specification: shift right by 10 bits per
unit step "until the value is below 1024 or the units are exhausted".
Written from the spec's words (not from the source) in order to compare
the two; when the units run out it renders the remaining value with the
last unit instead of failing. -/
def renderSpec (b : Nat) : List String → Option String
  | [] => none
  | [u] => some (toString b ++ u)
  | u :: u' :: rest =>
      if b < 1024 then some (toString b ++ u) else renderSpec (b >>> 10) (u' :: rest)

/-! ## Dataset resolution (`get_available_products`, lines 81-91) -/

/-- One pass of the inner loop body: find the first entry whose `name`
equals `dsName` and append `item` to its item list (the Python code
mutates the found dict in place, so its position is preserved); if no
entry matches (`StopIteration`), append a fresh `{'name': ds_name,
'items': [item]}` at the end of the list. -/
def addToDataset : List Dataset → RawItem → String → List Dataset
  | [], item, dsName => [⟨dsName, [item]⟩]
  | d :: rest, item, dsName =>
      if d.name = dsName then ⟨d.name, d.items ++ [item]⟩ :: rest
      else d :: addToDataset rest item dsName

/-- The inner loop `for ds_name in item['datasets']` (lines 83-89). -/
def unwindItem (acc : List Dataset) (item : RawItem) : List Dataset :=
  item.datasets.foldl (fun a n => addToDataset a item n) acc

/-- The outer loop `for item in items` (lines 82-89), starting from the
empty `datasets_unwinded` list. -/
def unwindDatasets (items : List RawItem) : List Dataset :=
  items.foldl unwindItem []

/-- Ordering used by `datasets_unwinded.sort(key=lambda k: k['name'])`
(line 91): compare by name. -/
def dsLE (a b : Dataset) : Prop := a.name ≤ b.name

instance : DecidableRel dsLE := fun a b => inferInstanceAs (Decidable (a.name ≤ b.name))

instance : IsTotal Dataset dsLE := ⟨fun a b => le_total a.name b.name⟩

instance : IsTrans Dataset dsLE := ⟨fun _ _ _ h h' => le_trans h h'⟩

/-- The pure core of `get_available_products`: unwind the items into
datasets and sort the result by name (lines 81-91).  Python's `list.sort`
is a stable sort; since the entry names are pairwise distinct any sort
with respect to `dsLE` produces the same list, so insertion sort is used. -/
def resolveDatasets (items : List RawItem) : List Dataset :=
  List.insertionSort dsLE (unwindDatasets items)

/-- The items of the (first, and in fact unique) resolved dataset named
`nm`; `[]` when no dataset has that name.  Mirrors
`next(x for x in datasets_unwinded if x['name'] == ds_name)` (line 85). -/
def itemsOf (nm : String) (l : List Dataset) : List RawItem :=
  match l.find? (fun d => decide (d.name = nm)) with
  | some d => d.items
  | none => []

/-! ## Paths (`download_datasets`, lines 20-27)

POSIX semantics of `os.path.join` and `os.path.split(...)[1]`. -/

/-- Characters of `os.path.split(s)[1]`: the segment after the last `/`
(the whole string when there is no `/`).  The left fold restarts the
accumulator at every `/`. -/
def basenameChars (l : List Char) : List Char :=
  l.foldl (fun acc c => if c = '/' then [] else acc ++ [c]) []

/-- `os.path.split(s)[1]` on POSIX paths. -/
def os_path_basename (s : String) : String := ⟨basenameChars s.data⟩

/-- `os.path.join(a, b)` on POSIX paths: an absolute `b` replaces `a`;
otherwise a separator is inserted unless `a` is empty or already ends in
`/`. -/
def os_path_join (a b : String) : String :=
  if b.data.head? = some '/' then b
  else if a.data = [] ∨ a.data.getLast? = some '/' then a ++ b
  else a ++ "/" ++ b

/-- Destination path of one task (lines 20 and 26):
`os.path.join(os.path.join(output_dir, dataset['name']), os.path.split(url)[1])`. -/
def destPath (output_dir dsName url : String) : String :=
  os_path_join (os_path_join output_dir dsName) (os_path_basename url)

/-- The `downloads` list built for one dataset (lines 24-27): one
`(url, localpath)` pair per item. -/
def downloadTasks (output_dir : String) (d : Dataset) : List (String × String) :=
  d.items.map (fun i => (i.downloadURL, destPath output_dir d.name i.downloadURL))

/-! ## Summary lines and selection parsing (`main`, lines 121-131) -/

/-- `sum(i.get('sizeInBytes', 0) for i in ds['items'])` (line 125). -/
def sumSizes (d : Dataset) : Nat :=
  (d.items.map (fun i => i.sizeInBytes.getD 0)).sum

/-- The checkbox choice string built for one dataset (line 125):
`f"{name} | {count} items @ {human_size(total)}"`.  `none` when
`human_size` raises (unit list exhausted). -/
def choiceLine (d : Dataset) : Option String :=
  (human_size (sumSizes d) defaultUnits).map (fun hs =>
    d.name ++ " | " ++ toString d.items.length ++ " items @ " ++ hs)

/-- All choice strings (lines 124-126), evaluated left to right as the
list comprehension does; `none` when any one raises. -/
def choicesOf : List Dataset → Option (List String)
  | [] => some []
  | d :: rest =>
      match choiceLine d with
      | none => none
      | some c => (choicesOf rest).map (fun cs => c :: cs)

/-- Characters stripped by Python's `str.strip()`: precisely those for
which `str.isspace()` holds — the ASCII whitespace `\t \n \x0b \x0c \r`
and space, the control characters `\x1c`-`\x1f`, and the Unicode
whitespace code points NEL, NBSP, OGHAM SPACE MARK, the EN QUAD..HAIR
SPACE range, LINE/PARAGRAPH SEPARATOR, NARROW NBSP, MMSP and IDEOGRAPHIC
SPACE. -/
def pySpace (c : Char) : Bool :=
  c ∈ [' ', '\t', '\n', '\r', Char.ofNat 0x0b, Char.ofNat 0x0c,
    Char.ofNat 0x1c, Char.ofNat 0x1d, Char.ofNat 0x1e, Char.ofNat 0x1f,
    Char.ofNat 0x85, Char.ofNat 0xa0, Char.ofNat 0x1680,
    Char.ofNat 0x2000, Char.ofNat 0x2001, Char.ofNat 0x2002, Char.ofNat 0x2003,
    Char.ofNat 0x2004, Char.ofNat 0x2005, Char.ofNat 0x2006, Char.ofNat 0x2007,
    Char.ofNat 0x2008, Char.ofNat 0x2009, Char.ofNat 0x200a,
    Char.ofNat 0x2028, Char.ofNat 0x2029, Char.ofNat 0x202f, Char.ofNat 0x205f,
    Char.ofNat 0x3000]

/-- `str.lstrip()` on the character list. -/
def py_lstrip (l : List Char) : List Char := l.dropWhile pySpace

/-- `str.rstrip()` on the character list. -/
def py_rstrip (l : List Char) : List Char := (l.reverse.dropWhile pySpace).reverse

/-- `str.strip()` on the character list. -/
def py_strip (l : List Char) : List Char := py_rstrip (py_lstrip l)

/-- `s.split('|')[0]`: the prefix before the first `|` (the whole string
when there is none). -/
def splitHead (sep : Char) (l : List Char) : List Char :=
  l.takeWhile (fun c => !(c == sep))

/-- `ds.split('|')[0].strip()` (line 130). -/
def parseSelection (s : String) : String := ⟨py_strip (splitHead '|' s.data)⟩

/-- `[p for p in available_products if p['name'] in selected_dataset_names]`
with `selected_dataset_names = [ds.split('|')[0].strip() for ds in answers]`
(lines 130-131). -/
def selected_datasets (available : List Dataset) (answers : List String) : List Dataset :=
  available.filter (fun p => decide (p.name ∈ answers.map parseSelection))

/-! ## `check_extent` (lines 39-60)

The argument string has already been split on `,`; each field is `some v`
when Python's `float()` succeeds on it with value `v`, `none` when it
raises.  `float()` also accepts the tokens `nan`, `inf`/`infinity` (with
optional sign), so a successfully parsed value is a finite number
(modelled as a rational — every decimal or scientific literal is one),
NaN, or an infinity.  The list-comprehension
`[float(c) for c in extent_split]` raises as soon as one conversion
fails, which is `floatAll`.  The range checks compare with IEEE-754
semantics: every comparison against NaN is false. -/
inductive PyFloat where
  | nan
  | inf
  | neg_inf
  | num (q : ℚ)
deriving DecidableEq

/-- IEEE-754 `<` as Python evaluates it on parsed floats: any comparison
involving NaN is false, `-inf` is below and `inf` above every finite
value, finite values compare as rationals. -/
def PyFloat.lt : PyFloat → PyFloat → Bool
  | .nan, _ => false
  | _, .nan => false
  | .neg_inf, .neg_inf => false
  | .neg_inf, _ => true
  | _, .neg_inf => false
  | .inf, _ => false
  | .num _, .inf => true
  | .num a, .num b => decide (a < b)

/-- Python `x > y` is `y < x`. -/
def PyFloat.gt (a b : PyFloat) : Bool := PyFloat.lt b a

def floatAll : List (Option PyFloat) → Option (List PyFloat)
  | [] => some []
  | none :: _ => none
  | some v :: rest => (floatAll rest).map (fun vs => v :: vs)

/-- The cascade of range checks of lines 48-60, transcribed in source
order over the parsed values. -/
def check_extent (fields : List (Option PyFloat)) : Except String (List PyFloat) :=
  if fields.length ≠ 4 then .error "not in expected format of xmin,ymin,xmax,ymax"
  else
    match floatAll fields with
    | none => .error "encountered non-numeric value"
    | some cs =>
      let x0 := cs.getD 0 (.num 0)
      let y0 := cs.getD 1 (.num 0)
      let x1 := cs.getD 2 (.num 0)
      let y1 := cs.getD 3 (.num 0)
      if x0.lt (.num (-180)) || x0.gt (.num 180) then
        .error "xmin must be between -180 and 180"
      else if x1.lt (.num (-180)) || x1.gt (.num 180) then
        .error "xmax must be between -180 and 180"
      else if y0.lt (.num (-90)) || y0.gt (.num 90) then
        .error "ymin must be between -90 and 90"
      else if y1.lt (.num (-90)) || y1.gt (.num 90) then
        .error "ymax must be between -90 and 90"
      else if x0.gt x1 then .error "xmin cant be greater than xmax"
      else if y0.gt y1 then .error "ymin cant be greater than ymax"
      else .ok cs

/-- Validity condition from the specification, written from the spec's
words for comparison with `check_extent`: four comma-separated numbers
with `xmin`, `xmax` in `[-180, 180]`, `ymin`, `ymax` in `[-90, 90]`,
`xmin ≤ xmax` and `ymin ≤ ymax`.  The field order of the argument string
is `xmin,ymin,xmax,ymax`, so `a` is xmin, `b` ymin, `c` xmax, `d` ymax. -/
def validExtentSpec (fields : List (Option PyFloat)) (a b c d : ℚ) : Prop :=
  fields = [some (.num a), some (.num b), some (.num c), some (.num d)] ∧
    -180 ≤ a ∧ a ≤ 180 ∧ -180 ≤ c ∧ c ≤ 180 ∧
    -90 ≤ b ∧ b ≤ 90 ∧ -90 ≤ d ∧ d ≤ 90 ∧ a ≤ c ∧ b ≤ d

/-- A parsed value passes the source's range check against `±bound`:
NaN passes vacuously (both comparisons are false), a finite value passes
exactly when it lies in the range, and the infinities fail. -/
def passesRange (v : PyFloat) (bound : ℚ) : Prop :=
  v = .nan ∨ ∃ q : ℚ, v = .num q ∧ -bound ≤ q ∧ q ≤ bound

/-- A pair of parsed values passes the source's ordering check: when
either is NaN (the `>` comparison is false) or both are finite and
ordered. -/
def passesOrder (v w : PyFloat) : Prop :=
  v = .nan ∨ w = .nan ∨ ∃ q r : ℚ, v = .num q ∧ w = .num r ∧ q ≤ r

/-! ## The catalog query and the `main` workflow (lines 71-132) -/

/-- The HTTP response of the TNM products endpoint, as consumed by
`get_available_products`.  `none` at the call site below stands for a
network failure (`requests.get` raised). -/
structure HttpResp where
  status : Nat
  messages : List String
  errors : List String
  items : List RawItem
deriving DecidableEq

/-- `get_available_products` (lines 71-96): on a 200 response it returns
`(messages, errors, resolved datasets)`; on a network failure or any
other status code it raises (line 96), modelled as `.error ()`. -/
def get_available_products (resp : Option HttpResp) :
    Except Unit (List String × List String × List Dataset) :=
  match resp with
  | none => .error ()
  | some r =>
      if r.status = 200 then .ok (r.messages, r.errors, resolveDatasets r.items)
      else .error ()

/-- Python exceptions that can escape `main` in the embedded fragment. -/
inductive PyErr where
  | nameError
  | indexError
  | argError
deriving DecidableEq

/-- Observable effects of one run of `main`. -/
inductive Effect where
  | spinnerOk
  | spinnerFail
  | printMessages (msgs : List String)
  | printErrors (errs : List String)
  | printNoProducts
  | prompt (choices : List String)
  | download (selected : List Dataset)
deriving DecidableEq

/-- Result of a run: the effect trace and the process outcome (a normal
exit code, or an uncaught Python exception). -/
structure RunResult where
  effects : List Effect
  outcome : Except PyErr Nat

/-- `main` (lines 99-132).  `choose` is the interactive checkbox prompt:
it maps the presented choice strings to the chosen subset.  When the
catalog query raises, the bare `except:` only marks the spinner as failed
(line 105); execution then falls through to `len(messages)` (line 107)
where `messages` was never bound, so a `NameError` escapes and the
process dies without reaching the prompt or `download_datasets`.  When it
succeeds, messages and errors are echoed, an empty dataset list prints an
informational line and exits via bare `sys.exit()` (exit status 0,
line 119), and otherwise the prompt is shown and the selected datasets
are handed to `download_datasets` (recorded as a `download` effect). -/
def main_model (resp : Option HttpResp) (choose : List String → List String) : RunResult :=
  match get_available_products resp with
  | .error _ => ⟨[.spinnerFail], .error .nameError⟩
  | .ok (messages, errors, available) =>
      let e1 : List Effect :=
        [.spinnerOk] ++
          (if messages.length > 0 then [.printMessages messages] else []) ++
          (if errors.length > 0 then [.printErrors errors] else [])
      if available.length = 0 then
        ⟨e1 ++ [.printNoProducts], .ok 0⟩
      else
        match choicesOf available with
        | none => ⟨e1, .error .indexError⟩
        | some choices =>
            let answers := choose choices
            ⟨e1 ++ [.prompt choices, .download (selected_datasets available answers)],
              .ok 0⟩

/-- The command-line surface (lines 135-175): `argparse` runs the type
callback `check_extent` before `main` is entered, and a failing callback
makes `argparse` abort the process (exit code 2) without any network
activity; only when validation passes does `main` run. -/
def run_cli (fields : List (Option PyFloat)) (resp : Option HttpResp)
    (choose : List String → List String) : RunResult :=
  match check_extent fields with
  | .error _ => ⟨[], .error .argError⟩
  | .ok _ => main_model resp choose

/-! ## The download engine (`download_datasets`, lines 18-36)

One dataset's batch is the `ThreadPoolExecutor(max_workers=W)` block of
lines 31-36: every item's fetch is submitted as a future, `as_completed`
yields each finished future once and the loop advances the progress bar,
and `bar.finish()` runs after all `len(items)` futures were yielded.
A future is `pending` (submitted, no worker yet), `running` (a worker is
executing `urllib.request.urlretrieve`), or `done o` (the call returned,
`o = none`, or raised, `o = some e`; the loop never calls `result()`, so
a stored exception never propagates).  Datasets are processed one after
the other by the `for dataset in datasets` loop (line 19). -/

inductive TStatus where
  | pending
  | running
  | done (failure : Option String)
deriving DecidableEq

/-- State of one dataset's batch: the status of each submitted future
(indexed by position in the `downloads` list) and the number of
`bar.next()` calls made so far by the `as_completed` loop. -/
structure BatchState where
  tasks : List TStatus
  ticks : Nat
deriving DecidableEq

/-- Number of futures currently being executed by a worker. -/
def countRunning (l : List TStatus) : Nat := l.countP (fun s => decide (s = .running))

/-- Number of futures not yet picked up by a worker. -/
def countPending (l : List TStatus) : Nat := l.countP (fun s => decide (s = .pending))

/-- Number of finished futures (success or stored exception). -/
def countDone (l : List TStatus) : Nat :=
  l.countP (fun s => match s with | .done _ => true | _ => false)

/-- Fresh batch for a dataset with `n` items: all futures pending, no
progress ticks. -/
def initB (n : Nat) : BatchState := ⟨List.replicate n .pending, 0⟩

/-- The `as_completed` loop has drained all futures: `bar.finish()` has
been reached and the `with` block can exit. -/
def BatchDone (b : BatchState) : Prop := b.ticks = b.tasks.length

instance : DecidablePred BatchDone := fun b =>
  inferInstanceAs (Decidable (b.ticks = b.tasks.length))

/-- One interleaving step inside a batch with worker bound `W`:
a pool worker starts a pending fetch (only when fewer than `W` are in
flight), a running fetch terminates (normally or with a stored
exception), or the `as_completed` loop observes one more finished future
and advances the bar. -/
inductive BStep (W : Nat) : BatchState → BatchState → Prop where
  | start (s : BatchState) (i : Nat) (hp : s.tasks[i]? = some .pending)
      (hw : countRunning s.tasks < W) :
      BStep W s ⟨s.tasks.set i .running, s.ticks⟩
  | finish (s : BatchState) (i : Nat) (o : Option String)
      (hr : s.tasks[i]? = some .running) :
      BStep W s ⟨s.tasks.set i (.done o), s.ticks⟩
  | tick (s : BatchState) (ht : s.ticks < countDone s.tasks) :
      BStep W s ⟨s.tasks, s.ticks + 1⟩

/-- State of `download_datasets`: the batches already fully processed
(in order) and, unless the outer loop has finished, the active batch
together with the item counts of the datasets still to come. -/
structure EngineState where
  processed : List BatchState
  active : Option (BatchState × List Nat)
deriving DecidableEq

/-- Initial engine state for datasets of sizes `ns`. -/
def initE (ns : List Nat) : EngineState :=
  match ns with
  | [] => ⟨[], none⟩
  | n :: rest => ⟨[], some (initB n, rest)⟩

/-- `download_datasets` has returned: the outer `for` loop is exhausted. -/
def EngineDone (s : EngineState) : Prop := s.active = none

instance : DecidablePred EngineDone := fun s =>
  inferInstanceAs (Decidable (s.active = none))

/-- One step of the engine: a step inside the active batch, or — only
once the active batch is drained — moving on to the next dataset
(line 19 loops) or returning from `download_datasets`. -/
inductive EStep (W : Nat) : EngineState → EngineState → Prop where
  | inner (ds : List BatchState) (b b' : BatchState) (rest : List Nat)
      (h : BStep W b b') :
      EStep W ⟨ds, some (b, rest)⟩ ⟨ds, some (b', rest)⟩
  | next (ds : List BatchState) (b : BatchState) (n : Nat) (rest : List Nat)
      (h : BatchDone b) :
      EStep W ⟨ds, some (b, n :: rest)⟩ ⟨ds ++ [b], some (initB n, rest)⟩
  | last (ds : List BatchState) (b : BatchState) (h : BatchDone b) :
      EStep W ⟨ds, some (b, [])⟩ ⟨ds ++ [b], none⟩

/-- Reachability from the initial state for dataset sizes `ns`. -/
def ReachableE (W : Nat) (ns : List Nat) (s : EngineState) : Prop :=
  Relation.ReflTransGen (EStep W) (initE ns) s

/-- Every task of the batch has reached a terminal state. -/
def AllDone (b : BatchState) : Prop :=
  ∀ st ∈ b.tasks, ∃ o, st = TStatus.done o

/-- Fetches in flight over the whole engine state (archived batches
included, so that cross-dataset concurrency is observable). -/
def totalRunning (s : EngineState) : Nat :=
  (s.processed.map (fun b => countRunning b.tasks)).sum +
    match s.active with
    | some (b, _) => countRunning b.tasks
    | none => 0

/-- Step budget of one batch: 2 per task not yet terminal is generous
enough, plus the pending bar ticks. -/
def measB (b : BatchState) : Nat :=
  2 * countPending b.tasks + countRunning b.tasks + (b.tasks.length - b.ticks)

/-- Step budget of the whole engine; strictly decreases along `EStep`. -/
def measE (s : EngineState) : Nat :=
  match s.active with
  | none => 0
  | some (b, rest) => measB b + 1 + (rest.map (fun n => 3 * n + 1)).sum

/-- Invariant of one batch under worker bound `W`: never more than `W`
fetches in flight, and the bar never ticks past the number of finished
futures. -/
def BatchInv (W : Nat) (b : BatchState) : Prop :=
  countRunning b.tasks ≤ W ∧ b.ticks ≤ countDone b.tasks

/-- The item counts of all datasets as recorded in the engine state:
sizes of the archived batches, then of the active one, then of the
datasets still to come. -/
def sizesOf (s : EngineState) : List Nat :=
  s.processed.map (fun b => b.tasks.length) ++
    match s.active with
    | some (b, rest) => b.tasks.length :: rest
    | none => []

/-- Engine invariant: archived batches are fully terminal and the active
batch satisfies the batch invariant. -/
def InvE (W : Nat) (s : EngineState) : Prop :=
  (∀ b ∈ s.processed, AllDone b) ∧
    match s.active with
    | some (b, _) => BatchInv W b
    | none => True

/-! ## Counting lemmas for the engine -/

theorem countP_set_add {α : Type} (p : α → Bool) (l : List α) (i : Nat) (u v : α)
    (h : l[i]? = some u) :
    (l.set i v).countP p + (if p u then 1 else 0) = l.countP p + (if p v then 1 else 0) := by
  induction l generalizing i with
  | nil => simp at h
  | cons a t ih =>
    cases i with
    | zero =>
      simp only [List.getElem?_cons_zero, Option.some_inj] at h
      subst h
      simp only [List.set_cons_zero, List.countP_cons]
      omega
    | succ j =>
      simp only [List.getElem?_cons_succ] at h
      have := ih j h
      simp only [List.set_cons_succ, List.countP_cons]
      omega

theorem exists_idx_of_countP_pos {α : Type} (p : α → Bool) (l : List α)
    (h : 0 < l.countP p) : ∃ (i : Nat) (u : α), l[i]? = some u ∧ p u = true := by
  induction l with
  | nil => simp at h
  | cons a t ih =>
    by_cases hp : p a
    · exact ⟨0, a, by simp, hp⟩
    · rw [List.countP_cons, if_neg hp] at h
      obtain ⟨i, u, hu, hpu⟩ := ih (by omega)
      refine ⟨i + 1, u, ?_, hpu⟩
      simpa using hu

theorem status_tripartition (l : List TStatus) :
    countPending l + countRunning l + countDone l = l.length := by
  induction l with
  | nil => simp [countPending, countRunning, countDone]
  | cons a t ih =>
    simp only [countPending, countRunning, countDone, List.countP_cons, List.length_cons] at *
    cases a <;> simp <;> omega

theorem allDone_of_countDone_eq (b : BatchState) (h : countDone b.tasks = b.tasks.length) :
    AllDone b := by
  intro st hst
  have := List.countP_eq_length.mp h st hst
  cases st with
  | pending => simp at this
  | running => simp at this
  | done o => exact ⟨o, rfl⟩

/-! ## Preservation of the batch invariant -/

theorem bstep_length {W : Nat} {b b' : BatchState} (h : BStep W b b') :
    b'.tasks.length = b.tasks.length := by
  cases h <;> simp [List.length_set]

theorem bstep_inv {W : Nat} {b b' : BatchState} (h : BStep W b b') (hb : BatchInv W b) :
    BatchInv W b' := by
  obtain ⟨hR, hT⟩ := hb
  cases h with
  | start i hp hw =>
    have h1 := countP_set_add (fun st => decide (st = TStatus.running)) b.tasks i _ TStatus.running hp
    have h2 := countP_set_add (fun st => match st with | .done _ => true | _ => false)
      b.tasks i _ TStatus.running hp
    constructor
    · show countRunning _ ≤ W
      simp only [countRunning] at hR hw ⊢
      simp at h1
      omega
    · show b.ticks ≤ countDone _
      simp only [countDone] at hT ⊢
      simp at h2
      omega
  | finish i o hr =>
    have h1 := countP_set_add (fun st => decide (st = TStatus.running)) b.tasks i _ (TStatus.done o) hr
    have h2 := countP_set_add (fun st => match st with | .done _ => true | _ => false)
      b.tasks i _ (TStatus.done o) hr
    constructor
    · show countRunning _ ≤ W
      simp only [countRunning] at hR ⊢
      simp at h1
      omega
    · show b.ticks ≤ countDone _
      simp only [countDone] at hT ⊢
      simp at h2
      omega
  | tick ht =>
    exact ⟨hR, ht⟩

theorem allDone_of_batchDone {W : Nat} {b : BatchState} (hb : BatchInv W b)
    (hd : BatchDone b) : AllDone b := by
  obtain ⟨-, hT⟩ := hb
  have hle : countDone b.tasks ≤ b.tasks.length :=
    List.countP_le_length _
  exact allDone_of_countDone_eq b (by unfold BatchDone at hd; omega)

/-! ## The engine invariant along executions -/

theorem initB_inv (W n : Nat) : BatchInv W (initB n) := by
  constructor
  · simp [initB, countRunning, List.countP_replicate]
  · simp [initB, countDone]

theorem estep_inv {W : Nat} {s s' : EngineState} (h : EStep W s s') (hi : InvE W s) :
    InvE W s' := by
  obtain ⟨hproc, hact⟩ := hi
  cases h with
  | inner ds b b' rest hb =>
    exact ⟨hproc, bstep_inv hb hact⟩
  | next ds b n rest hd =>
    refine ⟨?_, initB_inv W n⟩
    intro b' hb'
    rcases List.mem_append.mp hb' with hmem | hmem
    · exact hproc b' hmem
    · simp at hmem
      subst hmem
      exact allDone_of_batchDone hact hd
  | last ds b hd =>
    refine ⟨?_, trivial⟩
    intro b' hb'
    rcases List.mem_append.mp hb' with hmem | hmem
    · exact hproc b' hmem
    · simp at hmem
      subst hmem
      exact allDone_of_batchDone hact hd

theorem estep_sizes {W : Nat} {s s' : EngineState} (h : EStep W s s') :
    sizesOf s' = sizesOf s := by
  cases h with
  | inner ds b b' rest hb =>
    simp [sizesOf, bstep_length hb]
  | next ds b n rest hd =>
    simp [sizesOf, initB]
  | last ds b hd =>
    simp [sizesOf]

theorem initE_inv (W : Nat) (ns : List Nat) : InvE W (initE ns) ∧ sizesOf (initE ns) = ns := by
  cases ns with
  | nil => exact ⟨⟨by simp [initE], by simp [initE]⟩, by simp [initE, sizesOf]⟩
  | cons n rest =>
    refine ⟨⟨by simp [initE], ?_⟩, by simp [initE, sizesOf, initB]⟩
    simp only [initE]
    exact initB_inv W n

theorem reachable_inv {W : Nat} {ns : List Nat} {s : EngineState}
    (h : ReachableE W ns s) : InvE W s ∧ sizesOf s = ns := by
  induction h with
  | refl => exact initE_inv W ns
  | tail _ hstep ih =>
    exact ⟨estep_inv hstep ih.1, by rw [estep_sizes hstep, ih.2]⟩

/-! ## Measure decrease and progress -/

theorem bstep_measB {W : Nat} {b b' : BatchState} (h : BStep W b b') (hb : BatchInv W b) :
    measB b' < measB b := by
  obtain ⟨hR, hT⟩ := hb
  cases h with
  | start i hp hw =>
    have h1 := countP_set_add (fun st => decide (st = TStatus.running)) b.tasks i _ TStatus.running hp
    have h2 := countP_set_add (fun st => decide (st = TStatus.pending)) b.tasks i _ TStatus.running hp
    simp at h1 h2
    simp only [measB, countPending, countRunning, List.length_set] at *
    omega
  | finish i o hr =>
    have h1 := countP_set_add (fun st => decide (st = TStatus.running)) b.tasks i _ (TStatus.done o) hr
    have h2 := countP_set_add (fun st => decide (st = TStatus.pending)) b.tasks i _ (TStatus.done o) hr
    simp at h1 h2
    simp only [measB, countPending, countRunning, List.length_set] at *
    omega
  | tick ht =>
    have hle : countDone b.tasks ≤ b.tasks.length := List.countP_le_length _
    simp only [measB]
    simp only [countDone] at ht hle
    omega

theorem measB_initB (n : Nat) : measB (initB n) = 3 * n := by
  simp [measB, initB, countPending, countRunning, List.countP_replicate]
  omega

theorem estep_measE {W : Nat} {s s' : EngineState} (h : EStep W s s')
    (hi : InvE W s) : measE s' < measE s := by
  obtain ⟨-, hact⟩ := hi
  cases h with
  | inner ds b b' rest hb =>
    have := bstep_measB hb hact
    simp only [measE]
    omega
  | next ds b n rest hd =>
    simp only [measE, List.map_cons, List.sum_cons, measB_initB]
    omega
  | last ds b hd =>
    simp only [measE]
    omega

theorem engine_progress {W : Nat} {s : EngineState} (hW : 0 < W) (hi : InvE W s)
    (hnd : ¬ EngineDone s) : ∃ s', EStep W s s' := by
  obtain ⟨ds, act⟩ := s
  cases act with
  | none => exact absurd rfl hnd
  | some p =>
    obtain ⟨b, rest⟩ := p
    have hbi : BatchInv W b := hi.2
    by_cases h1 : b.ticks < countDone b.tasks
    · exact ⟨_, EStep.inner ds b _ rest (BStep.tick b h1)⟩
    · by_cases h2 : 0 < countPending b.tasks
      · by_cases h3 : countRunning b.tasks < W
        · obtain ⟨i, u, hu, hpu⟩ :=
            exists_idx_of_countP_pos (fun st => decide (st = TStatus.pending)) b.tasks h2
          simp only [decide_eq_true_eq] at hpu
          subst hpu
          exact ⟨_, EStep.inner ds b _ rest (BStep.start b i hu h3)⟩
        · have h4 : 0 < countRunning b.tasks := by omega
          obtain ⟨i, u, hu, hpu⟩ :=
            exists_idx_of_countP_pos (fun st => decide (st = TStatus.running)) b.tasks h4
          simp only [decide_eq_true_eq] at hpu
          subst hpu
          exact ⟨_, EStep.inner ds b _ rest (BStep.finish b i none hu)⟩
      · by_cases h4 : 0 < countRunning b.tasks
        · obtain ⟨i, u, hu, hpu⟩ :=
            exists_idx_of_countP_pos (fun st => decide (st = TStatus.running)) b.tasks h4
          simp only [decide_eq_true_eq] at hpu
          subst hpu
          exact ⟨_, EStep.inner ds b _ rest (BStep.finish b i none hu)⟩
        · have htri := status_tripartition b.tasks
          have hd : BatchDone b := by
            unfold BatchDone
            have := hbi.2
            omega
          cases rest with
          | nil => exact ⟨_, EStep.last ds b hd⟩
          | cons n r => exact ⟨_, EStep.next ds b n r hd⟩

theorem countRunning_eq_zero_of_allDone (b : BatchState) (h : AllDone b) :
    countRunning b.tasks = 0 := by
  rw [countRunning, List.countP_eq_zero]
  intro st hst
  obtain ⟨o, rfl⟩ := h st hst
  simp

/-- C1: in `download_datasets`, a failing task is only recorded in its
future (the `as_completed` loop never calls `result()`), so from any
reachable engine state — in particular one in which tasks have already
terminated with failures — the engine is never stuck before returning
(first conjunct), every step strictly decreases a finite budget, so every
maximal run reaches `EngineDone` after finitely many steps (second
conjunct), and the engine returns only once every selected dataset's full
task set has reached a terminal state, one batch of `d.items.length`
tasks per dataset (third conjunct); no failure escapes as an exception:
the only exit is `EngineDone`. -/
theorem C1_engine_drains (W : Nat) (hW : 0 < W) (datasets : List Dataset)
    (s : EngineState)
    (hs : ReachableE W (datasets.map (fun d => d.items.length)) s) :
    (¬ EngineDone s → ∃ s', EStep W s s')
    ∧ (∀ s', EStep W s s' → measE s' < measE s)
    ∧ (EngineDone s →
        s.processed.map (fun b => b.tasks.length) = datasets.map (fun d => d.items.length)
        ∧ ∀ b ∈ s.processed, AllDone b) := by
  obtain ⟨hi, hsz⟩ := reachable_inv hs
  refine ⟨fun hnd => engine_progress hW hi hnd,
    fun s' h => estep_measE h hi, fun hd => ⟨?_, hi.1⟩⟩
  unfold EngineDone at hd
  unfold sizesOf at hsz
  rw [hd] at hsz
  simpa using hsz

/-- Witness for C1 at a concrete input: one dataset with one item whose
fetch has already failed (`urllib.request.urlretrieve` raised); the
hypotheses `0 < W` and reachability are discharged concretely. -/
theorem C1_engine_drains_witness :
    (0 : Nat) < 1 ∧
      ReachableE 1 [1] ⟨[], some (⟨[TStatus.done (some "unreachable URL")], 0⟩, [])⟩ ∧
      ((¬ EngineDone ⟨[], some (⟨[TStatus.done (some "unreachable URL")], 0⟩, [])⟩ →
          ∃ s', EStep 1 ⟨[], some (⟨[TStatus.done (some "unreachable URL")], 0⟩, [])⟩ s')
        ∧ (∀ s', EStep 1 ⟨[], some (⟨[TStatus.done (some "unreachable URL")], 0⟩, [])⟩ s' →
            measE s' < measE ⟨[], some (⟨[TStatus.done (some "unreachable URL")], 0⟩, [])⟩)
        ∧ (EngineDone ⟨[], some (⟨[TStatus.done (some "unreachable URL")], 0⟩, [])⟩ →
            (⟨[], some (⟨[TStatus.done (some "unreachable URL")], 0⟩, [])⟩ :
                EngineState).processed.map (fun b => b.tasks.length) =
              [Dataset.mk "A" [⟨"http://bad/x", some 0, ["A"]⟩]].map
                (fun d => d.items.length)
            ∧ ∀ b ∈ (⟨[], some (⟨[TStatus.done (some "unreachable URL")], 0⟩, [])⟩ :
                EngineState).processed, AllDone b)) := by
  have hstep1 : EStep 1 (initE [1]) ⟨[], some (⟨[TStatus.running], 0⟩, [])⟩ :=
    EStep.inner [] (initB 1) ⟨[TStatus.running], 0⟩ []
      (BStep.start (initB 1) 0 rfl (by decide))
  have hstep2 : EStep 1 ⟨[], some (⟨[TStatus.running], 0⟩, [])⟩
      ⟨[], some (⟨[TStatus.done (some "unreachable URL")], 0⟩, [])⟩ :=
    EStep.inner [] ⟨[TStatus.running], 0⟩ ⟨[TStatus.done (some "unreachable URL")], 0⟩ []
      (BStep.finish ⟨[TStatus.running], 0⟩ 0 (some "unreachable URL") rfl)
  have hreach : ReachableE 1 [1] ⟨[], some (⟨[TStatus.done (some "unreachable URL")], 0⟩, [])⟩ :=
    Relation.ReflTransGen.tail (Relation.ReflTransGen.tail Relation.ReflTransGen.refl hstep1)
      hstep2
  exact ⟨by decide, hreach,
    C1_engine_drains 1 (by decide) [Dataset.mk "A" [⟨"http://bad/x", some 0, ["A"]⟩]] _ hreach⟩

/-- C9: from any reachable state of `download_datasets` — the worker pool
is the `ThreadPoolExecutor(max_workers=W)` of one dataset at a time — at
most `W` fetches are in flight at any instant over the whole engine
(first conjunct: archived datasets hold no running fetch, so datasets are
never downloaded concurrently with each other and the per-batch bound is
global), every batch whose completion has been reported (archived by the
sequential `for` loop) has all of its tasks terminal (second conjunct),
and a drained active batch (`bar.finish()` reached) is fully terminal
(third conjunct). -/
theorem C9_worker_bound (W : Nat) (datasets : List Dataset) (s : EngineState)
    (hs : ReachableE W (datasets.map (fun d => d.items.length)) s) :
    totalRunning s ≤ W
    ∧ (∀ b ∈ s.processed, AllDone b)
    ∧ (∀ b rest, s.active = some (b, rest) → BatchDone b → AllDone b) := by
  obtain ⟨⟨hproc, hact⟩, -⟩ := reachable_inv hs
  refine ⟨?_, hproc, ?_⟩
  · unfold totalRunning
    have hz : (s.processed.map (fun b => countRunning b.tasks)).sum = 0 := by
      apply List.sum_eq_zero
      intro x hx
      obtain ⟨b, hb, rfl⟩ := List.mem_map.mp hx
      exact countRunning_eq_zero_of_allDone b (hproc b hb)
    rw [hz]
    cases hA : s.active with
    | none => simp
    | some p =>
      obtain ⟨b, rest⟩ := p
      rw [hA] at hact
      simpa using hact.1
  · intro b rest hA hd
    rw [hA] at hact
    exact allDone_of_batchDone hact hd

/-! ## Lemmas about dataset resolution -/

theorem names_addToDataset (acc : List Dataset) (item : RawItem) (nm : String) :
    (addToDataset acc item nm).map Dataset.name =
      if nm ∈ acc.map Dataset.name then acc.map Dataset.name
      else acc.map Dataset.name ++ [nm] := by
  induction acc with
  | nil => simp [addToDataset]
  | cons d rest ih =>
    by_cases h : d.name = nm
    · simp [addToDataset, h]
    · have h' : ¬ nm = d.name := fun hh => h hh.symm
      by_cases h2 : nm ∈ rest.map Dataset.name <;>
        simp [addToDataset, h, h', h2, ih]

theorem mem_names_addToDataset (acc : List Dataset) (item : RawItem) (nm m : String) :
    m ∈ (addToDataset acc item nm).map Dataset.name ↔
      m ∈ acc.map Dataset.name ∨ m = nm := by
  rw [names_addToDataset]
  split_ifs with h
  · constructor
    · exact fun hm => Or.inl hm
    · rintro (hm | rfl)
      · exact hm
      · exact h
  · simp

theorem nodup_names_addToDataset (acc : List Dataset) (item : RawItem) (nm : String)
    (h : (acc.map Dataset.name).Nodup) :
    ((addToDataset acc item nm).map Dataset.name).Nodup := by
  rw [names_addToDataset]
  split_ifs with h2
  · exact h
  · simp [List.nodup_append, h, h2]

theorem itemsOf_cons_pos (m : String) (d : Dataset) (l : List Dataset) (h : d.name = m) :
    itemsOf m (d :: l) = d.items := by
  have hp : (fun x : Dataset => decide (x.name = m)) d = true := by simp [h]
  rw [itemsOf, List.find?_cons_of_pos l hp]

theorem itemsOf_cons_neg (m : String) (d : Dataset) (l : List Dataset) (h : ¬ d.name = m) :
    itemsOf m (d :: l) = itemsOf m l := by
  have hp : ¬ (fun x : Dataset => decide (x.name = m)) d = true := by simp [h]
  rw [itemsOf, List.find?_cons_of_neg l hp, itemsOf]

theorem itemsOf_addToDataset (acc : List Dataset) (item : RawItem) (nm m : String) :
    itemsOf m (addToDataset acc item nm) =
      if m = nm then itemsOf m acc ++ [item] else itemsOf m acc := by
  induction acc with
  | nil =>
    by_cases h : m = nm
    · subst h
      rw [addToDataset, itemsOf_cons_pos m ⟨m, [item]⟩ [] rfl]
      simp [itemsOf]
    · have h' : ¬ nm = m := fun hh => h hh.symm
      rw [addToDataset, itemsOf_cons_neg m ⟨nm, [item]⟩ [] h']
      simp [itemsOf, h]
  | cons d rest ih =>
    by_cases h : d.name = nm
    · rw [addToDataset, if_pos h]
      by_cases hm : d.name = m
      · have hmn : m = nm := hm.symm.trans h
        rw [itemsOf_cons_pos m ⟨d.name, d.items ++ [item]⟩ rest hm,
          itemsOf_cons_pos m d rest hm, if_pos hmn]
      · have hmn : ¬ m = nm := fun hh => hm (h.trans hh.symm)
        rw [itemsOf_cons_neg m ⟨d.name, d.items ++ [item]⟩ rest hm,
          itemsOf_cons_neg m d rest hm, if_neg hmn]
    · rw [addToDataset, if_neg h]
      by_cases hm : d.name = m
      · have hmn : ¬ m = nm := fun hh => h (hm.trans hh)
        rw [itemsOf_cons_pos m d _ hm, itemsOf_cons_pos m d rest hm, if_neg hmn]
      · rw [itemsOf_cons_neg m d _ hm, itemsOf_cons_neg m d rest hm, ih]

theorem mem_names_unwindFold (ns : List String) (acc : List Dataset) (item : RawItem)
    (m : String) :
    m ∈ ((ns.foldl (fun a n => addToDataset a item n) acc).map Dataset.name) ↔
      m ∈ acc.map Dataset.name ∨ m ∈ ns := by
  induction ns generalizing acc with
  | nil => simp
  | cons n ns ih =>
    rw [List.foldl_cons, ih, mem_names_addToDataset, List.mem_cons]
    tauto

theorem nodup_names_unwindFold (ns : List String) (acc : List Dataset) (item : RawItem)
    (h : (acc.map Dataset.name).Nodup) :
    (((ns.foldl (fun a n => addToDataset a item n) acc)).map Dataset.name).Nodup := by
  induction ns generalizing acc with
  | nil => exact h
  | cons n ns ih =>
    rw [List.foldl_cons]
    exact ih _ (nodup_names_addToDataset acc item n h)

theorem itemsOf_unwindFold (ns : List String) (acc : List Dataset) (item : RawItem)
    (m : String) :
    itemsOf m (ns.foldl (fun a n => addToDataset a item n) acc) =
      itemsOf m acc ++ List.replicate (ns.count m) item := by
  induction ns generalizing acc with
  | nil => simp [List.count]
  | cons n ns ih =>
    rw [List.foldl_cons, ih, itemsOf_addToDataset, List.count_cons]
    by_cases h : m = n
    · have hn : (n == m) = true := by simpa using h.symm
      simp [h, hn, List.replicate_succ, List.append_assoc]
    · have hn : ¬ (n == m) = true := by
        simp only [beq_iff_eq]
        exact fun hh => h hh.symm
      simp [h, hn]

theorem mem_names_unwindDatasets (items : List RawItem) (m : String) :
    m ∈ (unwindDatasets items).map Dataset.name ↔ ∃ it ∈ items, m ∈ it.datasets := by
  suffices h : ∀ acc : List Dataset,
      m ∈ ((items.foldl unwindItem acc).map Dataset.name) ↔
        m ∈ acc.map Dataset.name ∨ ∃ it ∈ items, m ∈ it.datasets by
    simpa [unwindDatasets] using h []
  induction items with
  | nil => simp
  | cons it rest ih =>
    intro acc
    rw [List.foldl_cons, ih, unwindItem, mem_names_unwindFold]
    simp only [List.mem_cons, exists_eq_or_imp]
    tauto

theorem nodup_names_unwindDatasets (items : List RawItem) :
    ((unwindDatasets items).map Dataset.name).Nodup := by
  suffices h : ∀ acc : List Dataset, (acc.map Dataset.name).Nodup →
      ((items.foldl unwindItem acc).map Dataset.name).Nodup by
    exact h [] (by simp)
  induction items with
  | nil => exact fun acc h => h
  | cons it rest ih =>
    intro acc hacc
    rw [List.foldl_cons]
    exact ih _ (nodup_names_unwindFold it.datasets acc it hacc)

theorem count_itemsOf_unwindDatasets (items : List RawItem) (m : String) (x : RawItem) :
    (itemsOf m (unwindDatasets items)).count x = items.count x * x.datasets.count m := by
  suffices h : ∀ acc : List Dataset,
      (itemsOf m (items.foldl unwindItem acc)).count x =
        (itemsOf m acc).count x + items.count x * x.datasets.count m by
    simpa [unwindDatasets, itemsOf] using h []
  induction items with
  | nil => simp
  | cons it rest ih =>
    intro acc
    rw [List.foldl_cons, ih, unwindItem, itemsOf_unwindFold, List.count_append,
      List.count_replicate, List.count_cons]
    by_cases h : it = x
    · subst h
      simp [Nat.add_mul, Nat.add_assoc, Nat.add_comm, Nat.add_left_comm]
    · have hx : ¬ (it == x) = true := by simpa using h
      simp [hx]

theorem itemsOf_eq_of_mem (l : List Dataset) (hnd : (l.map Dataset.name).Nodup)
    (d : Dataset) (hd : d ∈ l) : itemsOf d.name l = d.items := by
  induction l with
  | nil => simp at hd
  | cons e rest ih =>
    simp only [List.map_cons, List.nodup_cons] at hnd
    rcases List.mem_cons.mp hd with rfl | hmem
    · exact itemsOf_cons_pos d.name d rest rfl
    · by_cases h : e.name = d.name
      · exact absurd (h ▸ List.mem_map_of_mem Dataset.name hmem) hnd.1
      · rw [itemsOf_cons_neg d.name e rest h]
        exact ih hnd.2 hmem

/-- C2: the resolved dataset list is strictly ascending by name (hence
sorted and with pairwise-distinct names), and its name set is exactly the
set of dataset names occurring across the raw items' membership lists. -/
theorem C2_resolver_names (items : List RawItem) (hne : items ≠ []) :
    ((resolveDatasets items).map Dataset.name).Pairwise (· < ·)
    ∧ ∀ n : String,
        (∃ d ∈ resolveDatasets items, d.name = n) ↔ ∃ it ∈ items, n ∈ it.datasets := by
  have hperm : (resolveDatasets items).Perm (unwindDatasets items) :=
    List.perm_insertionSort dsLE _
  have hnd0 : ((unwindDatasets items).map Dataset.name).Nodup :=
    nodup_names_unwindDatasets items
  have hnd : ((resolveDatasets items).map Dataset.name).Nodup :=
    ((hperm.map Dataset.name).nodup_iff).mpr hnd0
  have hsorted : List.Sorted dsLE (resolveDatasets items) :=
    List.sorted_insertionSort dsLE (unwindDatasets items)
  constructor
  · rw [List.pairwise_map]
    have hle : (resolveDatasets items).Pairwise (fun a b => a.name ≤ b.name) := hsorted
    have hne' : (resolveDatasets items).Pairwise (fun a b => a.name ≠ b.name) := by
      rw [List.Nodup] at hnd
      exact List.pairwise_map.mp hnd
    exact (hle.and hne').imp fun h => lt_of_le_of_ne h.1 h.2
  · intro n
    rw [show (∃ d ∈ resolveDatasets items, d.name = n) ↔
        n ∈ (resolveDatasets items).map Dataset.name by simp]
    rw [(hperm.map Dataset.name).mem_iff]
    exact mem_names_unwindDatasets items n

/-- Witness for C2 at a concrete input: a single item in two datasets. -/
theorem C2_resolver_names_witness :
    ([(⟨"http://e/f.laz", some 5, ["B", "A"]⟩ : RawItem)] ≠ []) ∧
      (((resolveDatasets [⟨"http://e/f.laz", some 5, ["B", "A"]⟩]).map
          Dataset.name).Pairwise (· < ·)
        ∧ ∀ n : String,
            (∃ d ∈ resolveDatasets [⟨"http://e/f.laz", some 5, ["B", "A"]⟩], d.name = n) ↔
              ∃ it ∈ [(⟨"http://e/f.laz", some 5, ["B", "A"]⟩ : RawItem)], n ∈ it.datasets) :=
  ⟨by decide, C2_resolver_names [⟨"http://e/f.laz", some 5, ["B", "A"]⟩] (by decide)⟩

/-- C3: a raw item occurring once in the catalog response, whose
membership list names `K` distinct datasets, is a member of exactly `K`
resolved datasets' item lists, with exactly one occurrence in each
(Python appends the same dict reference once per membership, with no
deduplication across datasets). -/
theorem C3_no_dedup (items : List RawItem) (x : RawItem)
    (h1 : items.count x = 1) (h2 : x.datasets.Nodup) :
    ((resolveDatasets items).countP (fun d => decide (x ∈ d.items))) = x.datasets.length
    ∧ ∀ d ∈ resolveDatasets items, x ∈ d.items → d.items.count x = 1 := by
  have hperm : (resolveDatasets items).Perm (unwindDatasets items) :=
    List.perm_insertionSort dsLE _
  have hnd0 : ((unwindDatasets items).map Dataset.name).Nodup :=
    nodup_names_unwindDatasets items
  have hx : x ∈ items := List.count_pos_iff.mp (by omega)
  have hcount : ∀ d ∈ unwindDatasets items, d.items.count x = x.datasets.count d.name := by
    intro d hd
    rw [← itemsOf_eq_of_mem _ hnd0 d hd, count_itemsOf_unwindDatasets, h1, Nat.one_mul]
  constructor
  · rw [hperm.countP_eq]
    rw [List.countP_congr (q := fun d => decide (d.name ∈ x.datasets)) ?_]
    · rw [show (fun d : Dataset => decide (d.name ∈ x.datasets)) =
          ((fun n => decide (n ∈ x.datasets)) ∘ Dataset.name) from rfl,
        ← List.countP_map, List.countP_eq_length_filter]
      have hfnd : ((unwindDatasets items).map Dataset.name).filter
          (fun n => decide (n ∈ x.datasets)) |>.Nodup := hnd0.filter _
      have hmem : ∀ n : String,
          n ∈ ((unwindDatasets items).map Dataset.name).filter
            (fun n => decide (n ∈ x.datasets)) ↔ n ∈ x.datasets := by
        intro n
        rw [List.mem_filter]
        simp only [decide_eq_true_eq]
        constructor
        · exact fun h => h.2
        · intro h
          exact ⟨(mem_names_unwindDatasets items n).mpr ⟨x, hx, h⟩, h⟩
      have hts : (((unwindDatasets items).map Dataset.name).filter
          (fun n => decide (n ∈ x.datasets))).toFinset = x.datasets.toFinset := by
        ext n
        simp only [List.mem_toFinset]
        exact hmem n
      rw [← List.toFinset_card_of_nodup hfnd, hts, List.toFinset_card_of_nodup h2]
    · intro d hd
      simp only [decide_eq_true_eq]
      rw [← List.count_pos_iff (a := x), hcount d hd, List.count_pos_iff]
  · intro d hdr hxd
    have hd : d ∈ unwindDatasets items := hperm.mem_iff.mp hdr
    have hle : x.datasets.count d.name ≤ 1 := List.nodup_iff_count_le_one.mp h2 d.name
    have hpos : 0 < d.items.count x := List.count_pos_iff.mpr hxd
    rw [hcount d hd] at hpos ⊢
    omega

/-- Witness for C3 at a concrete input: one item with two distinct
memberships. -/
theorem C3_no_dedup_witness :
    ([(⟨"http://e/f.laz", some 5, ["A", "B"]⟩ : RawItem)].count
        (⟨"http://e/f.laz", some 5, ["A", "B"]⟩ : RawItem) = 1) ∧
      (["A", "B"] : List String).Nodup ∧
      (((resolveDatasets [⟨"http://e/f.laz", some 5, ["A", "B"]⟩]).countP
          (fun d => decide ((⟨"http://e/f.laz", some 5, ["A", "B"]⟩ : RawItem) ∈ d.items))) =
          (["A", "B"] : List String).length
        ∧ ∀ d ∈ resolveDatasets [⟨"http://e/f.laz", some 5, ["A", "B"]⟩],
            (⟨"http://e/f.laz", some 5, ["A", "B"]⟩ : RawItem) ∈ d.items →
              d.items.count (⟨"http://e/f.laz", some 5, ["A", "B"]⟩ : RawItem) = 1) :=
  ⟨by decide, by decide,
    C3_no_dedup [⟨"http://e/f.laz", some 5, ["A", "B"]⟩]
      ⟨"http://e/f.laz", some 5, ["A", "B"]⟩ (by decide) (by decide)⟩

/-! ## Lemmas about destination paths -/

theorem foldl_basename_no_slash (f : List Char) (acc : List Char)
    (hf : ∀ c ∈ f, ¬ c = '/') :
    f.foldl (fun acc c => if c = '/' then [] else acc ++ [c]) acc = acc ++ f := by
  induction f generalizing acc with
  | nil => simp
  | cons c t ih =>
    rw [List.foldl_cons, if_neg (hf c (List.mem_cons_self c t)),
      ih (acc ++ [c]) (fun c' hc' => hf c' (List.mem_cons_of_mem c hc'))]
    simp

theorem basenameChars_append_slash (p f : List Char) (hf : '/' ∉ f) :
    basenameChars (p ++ '/' :: f) = f := by
  unfold basenameChars
  rw [List.foldl_append, List.foldl_cons, if_pos rfl,
    foldl_basename_no_slash f [] (fun c hc he => hf (he ▸ hc))]
  simp

/-- C4 counterexample: the basename taken by `os.path.split` is the
segment after the last `/` of the *whole* URL, so a query string stays in
the destination path; two URLs that differ only in their query-string
components map to different destinations, falsifying "the basename is
independent of any query-string components of the URL". -/
theorem C4_dest_path_counterexample :
    destPath "out" "Lidar Point Cloud (LPC)" "http://example.com/file.laz?v=1"
        = "out/Lidar Point Cloud (LPC)/file.laz?v=1"
    ∧ destPath "out" "Lidar Point Cloud (LPC)" "http://example.com/file.laz?v=1"
        ≠ "out/Lidar Point Cloud (LPC)/file.laz"
    ∧ destPath "out" "D" "http://e/file.laz?a=1" ≠ destPath "out" "D" "http://e/file.laz?a=2" := by
  decide

/-- C4 (amended): every task built by `download_datasets` for item `i` of
dataset `d` has destination `os.path.join(os.path.join(out, d.name),
basename(i.downloadURL))`, where the basename is the segment after the
last `/` of the URL — including any query-string text; for a
slash-free final segment `f` the basename of `p ++ "/" ++ f` is exactly
`f`, and in particular the spec's query-free example resolves exactly as
stated. -/
theorem C4_dest_path (out : String) (d : Dataset) (i : RawItem) (hi : i ∈ d.items)
    (p f : List Char) (hf : '/' ∉ f) :
    (i.downloadURL, destPath out d.name i.downloadURL) ∈ downloadTasks out d
    ∧ basenameChars (p ++ '/' :: f) = f
    ∧ destPath "out" "Lidar Point Cloud (LPC)" "http://example.com/file.laz"
        = "out/Lidar Point Cloud (LPC)/file.laz" :=
  ⟨List.mem_map_of_mem _ hi, basenameChars_append_slash p f hf, by decide⟩

/-- Witness for C4 at a concrete input. -/
theorem C4_dest_path_witness :
    ((⟨"http://e/f.laz", some 1, ["D"]⟩ : RawItem) ∈
        (Dataset.mk "D" [⟨"http://e/f.laz", some 1, ["D"]⟩]).items) ∧
      ('/' ∉ ['f', '.', 'l', 'a', 'z']) ∧
      (((⟨"http://e/f.laz", some 1, ["D"]⟩ : RawItem).downloadURL,
          destPath "o" (Dataset.mk "D" [⟨"http://e/f.laz", some 1, ["D"]⟩]).name
            (⟨"http://e/f.laz", some 1, ["D"]⟩ : RawItem).downloadURL) ∈
          downloadTasks "o" (Dataset.mk "D" [⟨"http://e/f.laz", some 1, ["D"]⟩])
        ∧ basenameChars (['h', 't', 't', 'p'] ++ '/' :: ['f', '.', 'l', 'a', 'z'])
            = ['f', '.', 'l', 'a', 'z']
        ∧ destPath "out" "Lidar Point Cloud (LPC)" "http://example.com/file.laz"
            = "out/Lidar Point Cloud (LPC)/file.laz") :=
  ⟨by decide, by decide,
    C4_dest_path "o" (Dataset.mk "D" [⟨"http://e/f.laz", some 1, ["D"]⟩])
      ⟨"http://e/f.laz", some 1, ["D"]⟩ (by decide)
      ['h', 't', 't', 'p'] ['f', '.', 'l', 'a', 'z'] (by decide)⟩

/-! ## Lemmas about `human_size` -/

theorem human_size_total (units : List String) (b : Nat)
    (h : b < 1024 ^ units.length) (hu : units ≠ []) :
    ∃ k < units.length, (∀ j < k, 1024 ≤ b >>> (10 * j)) ∧ b >>> (10 * k) < 1024 ∧
      human_size b units = some (toString (b >>> (10 * k)) ++ units.getD k "") := by
  induction units generalizing b with
  | nil => exact absurd rfl hu
  | cons u rest ih =>
    by_cases hb : b < 1024
    · refine ⟨0, by simp, fun j hj => absurd hj (Nat.not_lt_zero j), ?_, ?_⟩
      · simpa using hb
      · simp [human_size, if_pos hb]
    · have hrest : rest ≠ [] := by
        intro he
        subst he
        simp at h
        omega
      have hb' : b >>> 10 < 1024 ^ rest.length := by
        rw [Nat.shiftRight_eq_div_pow]
        have h2 : (2 : Nat) ^ 10 = 1024 := by norm_num
        rw [h2, Nat.div_lt_iff_lt_mul (by norm_num)]
        calc b < 1024 ^ (u :: rest).length := h
          _ = 1024 ^ rest.length * 1024 := by rw [List.length_cons]; ring
      obtain ⟨k, hk, hlow, hhigh, heq⟩ := ih (b >>> 10) hb' hrest
      refine ⟨k + 1, by simpa using Nat.succ_lt_succ hk, ?_, ?_, ?_⟩
      · intro j hj
        cases j with
        | zero => simpa using (by omega : 1024 ≤ b)
        | succ j' =>
          rw [show 10 * (j' + 1) = 10 + 10 * j' by ring, Nat.shiftRight_add]
          exact hlow j' (by omega)
      · rw [show 10 * (k + 1) = 10 + 10 * k by ring, Nat.shiftRight_add]
        exact hhigh
      · simp only [human_size, if_neg hb]
        rw [heq, show 10 * (k + 1) = 10 + 10 * k by ring, Nat.shiftRight_add,
          List.getD_cons_succ]

/-- C5 counterexample: for a size of `2 ^ 70` bytes (≥ 1024⁷) the unit
list runs out and the Python code evaluates `[][0]`, raising `IndexError`
(modelled `none`) instead of rendering a string, whereas the renderer the
claim describes (stop "when the units are exhausted") still renders. -/
theorem C5_human_size_counterexample :
    human_size (2 ^ 70) defaultUnits = none
    ∧ renderSpec (2 ^ 70) defaultUnits = some "1024 EB"
    ∧ human_size (2 ^ 70) defaultUnits ≠ renderSpec (2 ^ 70) defaultUnits := by
  decide

/-- C5 (amended): the checkbox line shows `human_size` of the sum of the
member items' sizes with an absent `sizeInBytes` counted as 0; for every
size below `1024 ^ 7` the rendering shifts right 10 bits per unit step
until the value is below 1024 (so 0 ↦ "0 bytes", 1536 ↦ "1 KB", and
100 + absent + 924 = 1024 ↦ "1 KB"); for sizes ≥ `1024 ^ 7` the unit
list is exhausted and `human_size` raises `IndexError` instead of
rendering. -/
theorem C5_summary_size (b : Nat) (hb : b < 1024 ^ 7) :
    (∀ d : Dataset, choiceLine d = (human_size (sumSizes d) defaultUnits).map
        (fun hs => d.name ++ " | " ++ toString d.items.length ++ " items @ " ++ hs))
    ∧ (∃ k < 7, (∀ j < k, 1024 ≤ b >>> (10 * j)) ∧ b >>> (10 * k) < 1024 ∧
        human_size b defaultUnits = some (toString (b >>> (10 * k)) ++ defaultUnits.getD k ""))
    ∧ sumSizes ⟨"D", [⟨"u1", some 100, ["D"]⟩, ⟨"u2", none, ["D"]⟩,
        ⟨"u3", some 924, ["D"]⟩]⟩ = 1024
    ∧ human_size 1024 defaultUnits = some "1 KB"
    ∧ human_size 0 defaultUnits = some "0 bytes"
    ∧ human_size 1536 defaultUnits = some "1 KB" := by
  refine ⟨fun d => rfl, ?_, by decide, by decide, by decide, by decide⟩
  have h7 : defaultUnits.length = 7 := rfl
  have h := human_size_total defaultUnits b (by rw [h7]; exact hb) (by decide)
  rwa [h7] at h

/-- Witness for C5 at the concrete size 1024. -/
theorem C5_summary_size_witness :
    (1024 : Nat) < 1024 ^ 7 ∧
      ((∀ d : Dataset, choiceLine d = (human_size (sumSizes d) defaultUnits).map
          (fun hs => d.name ++ " | " ++ toString d.items.length ++ " items @ " ++ hs))
        ∧ (∃ k < 7, (∀ j < k, 1024 ≤ (1024 : Nat) >>> (10 * j)) ∧
            (1024 : Nat) >>> (10 * k) < 1024 ∧
            human_size 1024 defaultUnits =
              some (toString ((1024 : Nat) >>> (10 * k)) ++ defaultUnits.getD k ""))
        ∧ sumSizes ⟨"D", [⟨"u1", some 100, ["D"]⟩, ⟨"u2", none, ["D"]⟩,
            ⟨"u3", some 924, ["D"]⟩]⟩ = 1024
        ∧ human_size 1024 defaultUnits = some "1 KB"
        ∧ human_size 0 defaultUnits = some "0 bytes"
        ∧ human_size 1536 defaultUnits = some "1 KB") :=
  ⟨by norm_num, C5_summary_size 1024 (by norm_num)⟩

/-- Witness for C9 at a concrete input: one dataset of two items, worker
bound 1, at the initial state. -/
theorem C9_worker_bound_witness :
    ReachableE 1 [2] (initE [2]) ∧
      (totalRunning (initE [2]) ≤ 1
        ∧ (∀ b ∈ (initE [2]).processed, AllDone b)
        ∧ (∀ b rest, (initE [2]).active = some (b, rest) → BatchDone b → AllDone b)) :=
  ⟨Relation.ReflTransGen.refl,
    C9_worker_bound 1
      [Dataset.mk "A" [⟨"http://e/a", some 1, ["A"]⟩, ⟨"http://e/b", none, ["A"]⟩]]
      (initE [2]) Relation.ReflTransGen.refl⟩

/-! ## Lemmas about `split('|')[0].strip()` -/

theorem length_py_rstrip_le (l : List Char) : (py_rstrip l).length ≤ l.length := by
  unfold py_rstrip
  rw [List.length_reverse]
  calc (l.reverse.dropWhile pySpace).length ≤ l.reverse.length :=
        (List.dropWhile_suffix pySpace).length_le
    _ = l.length := List.length_reverse l

theorem py_lstrip_eq_self (l : List Char) (h : py_strip l = l) : py_lstrip l = l := by
  have hsuf : py_lstrip l <:+ l := List.dropWhile_suffix pySpace
  have h1 : (py_lstrip l).length ≤ l.length := hsuf.length_le
  have h2 : l.length ≤ (py_lstrip l).length := by
    conv_lhs => rw [← h]
    exact length_py_rstrip_le (py_lstrip l)
  exact hsuf.eq_of_length (le_antisymm h1 h2)

theorem py_rstrip_eq_self (l : List Char) (h : py_strip l = l) : py_rstrip l = l := by
  have hl := py_lstrip_eq_self l h
  have h2 : py_rstrip (py_lstrip l) = l := h
  rwa [hl] at h2

theorem py_rstrip_append_space (l : List Char) : py_rstrip (l ++ [' ']) = py_rstrip l := by
  unfold py_rstrip
  rw [List.reverse_append]
  have h : ([' '] : List Char).reverse ++ l.reverse = ' ' :: l.reverse := rfl
  rw [h, List.dropWhile_cons, if_pos (by decide)]

theorem py_strip_append_space (l : List Char) (h : py_strip l = l) :
    py_strip (l ++ [' ']) = l := by
  cases l with
  | nil => decide
  | cons c t =>
    have hl : py_lstrip (c :: t) = c :: t := py_lstrip_eq_self _ h
    have hc : pySpace c = false := by
      by_contra hcc
      rw [Bool.not_eq_false] at hcc
      have h1 : py_lstrip (c :: t) = List.dropWhile pySpace t := by
        unfold py_lstrip
        rw [List.dropWhile_cons, if_pos hcc]
      have h2 : (List.dropWhile pySpace t).length ≤ t.length :=
        (List.dropWhile_suffix pySpace).length_le
      rw [h1] at hl
      have h3 := congrArg List.length hl
      simp at h3
      omega
    show py_rstrip (py_lstrip ((c :: t) ++ [' '])) = c :: t
    have h4 : py_lstrip ((c :: t) ++ [' ']) = (c :: t) ++ [' '] := by
      unfold py_lstrip
      rw [List.cons_append, List.dropWhile_cons, if_neg (by simp [hc])]
    rw [h4, py_rstrip_append_space]
    exact py_rstrip_eq_self _ h

theorem splitHead_append_bar (nd tail : List Char) (h1 : '|' ∉ nd) :
    splitHead '|' (nd ++ ' ' :: '|' :: tail) = nd ++ [' '] := by
  unfold splitHead
  have hself : nd.takeWhile (fun c => !(c == '|')) = nd :=
    List.takeWhile_eq_self_iff.mpr (fun c hc => by
      simp only [Bool.not_eq_true']
      simp only [beq_eq_false_iff_ne, ne_eq]
      exact fun e => h1 (e ▸ hc))
  have hlen : (nd.takeWhile (fun c => !(c == '|'))).length = nd.length := by rw [hself]
  rw [List.takeWhile_append, if_pos hlen, List.takeWhile_cons, if_pos (by decide),
    List.takeWhile_cons, if_neg (by decide)]

theorem parseSelection_roundtrip (name rest : String)
    (h1 : '|' ∉ name.data) (h2 : py_strip name.data = name.data) :
    parseSelection (name ++ " | " ++ rest) = name := by
  apply String.ext
  show py_strip (splitHead '|' (name ++ " | " ++ rest).data) = name.data
  have hdata : (name ++ " | " ++ rest).data =
      name.data ++ ' ' :: '|' :: (' ' :: rest.data) := by
    rw [String.data_append, String.data_append]
    show name.data ++ [' ', '|', ' '] ++ rest.data = _
    rw [List.append_assoc]
    rfl
  rw [hdata, splitHead_append_bar name.data (' ' :: rest.data) h1]
  exact py_strip_append_space name.data h2

/-- C10 counterexample: the dataset name " A" contains no `|`, yet the
round-trip strips its leading space: the checkbox line built by `main`
parses back to "A", not " A". -/
theorem C10_roundtrip_counterexample :
    ('|' ∉ (" A" : String).data)
    ∧ choiceLine ⟨" A", [⟨"http://e/f.laz", some 0, [" A"]⟩]⟩
        = some " A | 1 items @ 0 bytes"
    ∧ parseSelection " A | 1 items @ 0 bytes" = "A"
    ∧ ("A" : String) ≠ " A" := by
  decide

/-- C10 (amended): for a dataset name that contains no `|` *and* has no
leading or trailing Python whitespace (`strip()` fixes it), formatting
the summary line and parsing a chosen line back (`split('|')[0].strip()`)
returns exactly the name; consequently, when every available dataset
name is such a name and every answer is one of the presented summary
lines, the datasets selected by `main` are precisely those whose summary
line was chosen. -/
theorem C10_selection_roundtrip :
    (∀ name rest : String, '|' ∉ name.data → py_strip name.data = name.data →
        parseSelection (name ++ " | " ++ rest) = name)
    ∧ ∀ (available : List Dataset) (answers : List String),
        (∀ d ∈ available, '|' ∉ d.name.data ∧ py_strip d.name.data = d.name.data) →
        (∀ c ∈ answers, ∃ d ∈ available, ∃ r : String, c = d.name ++ " | " ++ r) →
        ∀ d ∈ available,
          (d ∈ selected_datasets available answers ↔
            ∃ r : String, d.name ++ " | " ++ r ∈ answers) := by
  refine ⟨parseSelection_roundtrip, ?_⟩
  intro available answers hA hC d hd
  constructor
  · intro hsel
    obtain ⟨-, hmem⟩ := List.mem_filter.mp hsel
    simp only [decide_eq_true_eq] at hmem
    obtain ⟨c, hc, hpc⟩ := List.mem_map.mp hmem
    obtain ⟨d', hd', r, rfl⟩ := hC c hc
    obtain ⟨hb', hs'⟩ := hA d' hd'
    rw [parseSelection_roundtrip d'.name r hb' hs'] at hpc
    rw [hpc] at hc
    exact ⟨r, hc⟩
  · rintro ⟨r, hr⟩
    refine List.mem_filter.mpr ⟨hd, ?_⟩
    simp only [decide_eq_true_eq]
    obtain ⟨hb, hs⟩ := hA d hd
    exact List.mem_map.mpr ⟨d.name ++ " | " ++ r, hr,
      parseSelection_roundtrip d.name r hb hs⟩

/-- Witness for C10 at concrete inputs: the round-trip at name "A", and
the selection filter over one available dataset with one chosen line. -/
theorem C10_selection_roundtrip_witness :
    ('|' ∉ ("A" : String).data) ∧ py_strip ("A" : String).data = ("A" : String).data ∧
      parseSelection ("A" ++ " | " ++ "1 items @ 0 bytes") = "A" :=
  ⟨by decide, by decide,
    C10_selection_roundtrip.1 "A" "1 items @ 0 bytes" (by decide) (by decide)⟩


/-! ## The workflow claims -/

/-- C6: when the catalog query fails — network failure (`requests.get`
raised) or a non-200 status (line 96 raises) — the spinner reports the
failure, no download is ever attempted (`download_datasets` is not
reached), and the process dies: the bare `except:` swallows the original
exception but execution then hits `len(messages)` with `messages`
unbound, so an uncaught `NameError` ends the run. -/
theorem C6_catalog_failure_fatal (resp : Option HttpResp)
    (choose : List String → List String)
    (hfail : resp = none ∨ ∃ r, resp = some r ∧ r.status ≠ 200) :
    Effect.spinnerFail ∈ (main_model resp choose).effects
    ∧ (∀ sel, Effect.download sel ∉ (main_model resp choose).effects)
    ∧ (∀ c, Effect.prompt c ∉ (main_model resp choose).effects)
    ∧ ∃ e, (main_model resp choose).outcome = .error e := by
  have hga : get_available_products resp = .error () := by
    rcases hfail with rfl | ⟨r, rfl, hr⟩
    · rfl
    · simp [get_available_products, hr]
  have hm : main_model resp choose = ⟨[.spinnerFail], .error .nameError⟩ := by
    unfold main_model
    rw [hga]
  rw [hm]
  exact ⟨by simp, fun sel => by simp, fun c => by simp, ⟨.nameError, rfl⟩⟩

/-- Witness for C6 at a concrete input: a 404 response. -/
theorem C6_catalog_failure_fatal_witness :
    (some (⟨404, [], [], []⟩ : HttpResp) = none ∨
        ∃ r, some (⟨404, [], [], []⟩ : HttpResp) = some r ∧ r.status ≠ 200) ∧
      (Effect.spinnerFail ∈ (main_model (some ⟨404, [], [], []⟩) (fun _ => [])).effects
        ∧ (∀ sel, Effect.download sel ∉
            (main_model (some ⟨404, [], [], []⟩) (fun _ => [])).effects)
        ∧ (∀ c, Effect.prompt c ∉
            (main_model (some ⟨404, [], [], []⟩) (fun _ => [])).effects)
        ∧ ∃ e, (main_model (some ⟨404, [], [], []⟩) (fun _ => [])).outcome = .error e) :=
  ⟨Or.inr ⟨⟨404, [], [], []⟩, rfl, by decide⟩,
    C6_catalog_failure_fatal (some ⟨404, [], [], []⟩) (fun _ => [])
      (Or.inr ⟨⟨404, [], [], []⟩, rfl, by decide⟩)⟩

/-- C7: a successful catalog query that resolves zero datasets prints the
informational "No products found" line and exits with status 0 via the
bare `sys.exit()` (line 119), without showing the selection prompt and
without invoking the download engine. -/
theorem C7_empty_result (r : HttpResp) (choose : List String → List String)
    (h200 : r.status = 200) (hz : resolveDatasets r.items = []) :
    (main_model (some r) choose).outcome = .ok 0
    ∧ Effect.printNoProducts ∈ (main_model (some r) choose).effects
    ∧ (∀ c, Effect.prompt c ∉ (main_model (some r) choose).effects)
    ∧ (∀ sel, Effect.download sel ∉ (main_model (some r) choose).effects) := by
  have hga : get_available_products (some r) = .ok (r.messages, r.errors, []) := by
    simp [get_available_products, h200, hz]
  unfold main_model
  rw [hga]
  refine ⟨?_, ?_, ?_, ?_⟩ <;>
    by_cases hmsg : r.messages.length > 0 <;> by_cases herr : r.errors.length > 0 <;>
      simp [hmsg, herr]

/-- Witness for C7 at a concrete input: a 200 response with no items. -/
theorem C7_empty_result_witness :
    ((⟨200, ["m"], [], []⟩ : HttpResp).status = 200) ∧
      resolveDatasets (⟨200, ["m"], [], []⟩ : HttpResp).items = [] ∧
      ((main_model (some ⟨200, ["m"], [], []⟩) (fun _ => [])).outcome = .ok 0
        ∧ Effect.printNoProducts ∈
            (main_model (some ⟨200, ["m"], [], []⟩) (fun _ => [])).effects
        ∧ (∀ c, Effect.prompt c ∉
            (main_model (some ⟨200, ["m"], [], []⟩) (fun _ => [])).effects)
        ∧ (∀ sel, Effect.download sel ∉
            (main_model (some ⟨200, ["m"], [], []⟩) (fun _ => [])).effects)) :=
  ⟨rfl, by decide,
    C7_empty_result ⟨200, ["m"], [], []⟩ (fun _ => []) rfl (by decide)⟩

/-! ## Lemmas about `check_extent` -/

theorem check_extent_length (fields : List (Option PyFloat)) (h : fields.length ≠ 4) :
    check_extent fields = .error "not in expected format of xmin,ymin,xmax,ymax" := by
  unfold check_extent
  rw [if_pos h]

theorem check_extent_nonnum (fields : List (Option PyFloat)) (h4 : fields.length = 4)
    (h : floatAll fields = none) :
    check_extent fields = .error "encountered non-numeric value" := by
  unfold check_extent
  rw [if_neg (by simp [h4]), h]

theorem check_extent_some (v0 v1 v2 v3 : PyFloat) :
    check_extent [some v0, some v1, some v2, some v3] =
      if v0.lt (.num (-180)) || v0.gt (.num 180) then
        .error "xmin must be between -180 and 180"
      else if v2.lt (.num (-180)) || v2.gt (.num 180) then
        .error "xmax must be between -180 and 180"
      else if v1.lt (.num (-90)) || v1.gt (.num 90) then
        .error "ymin must be between -90 and 90"
      else if v3.lt (.num (-90)) || v3.gt (.num 90) then
        .error "ymax must be between -90 and 90"
      else if v0.gt v2 then .error "xmin cant be greater than xmax"
      else if v1.gt v3 then .error "ymin cant be greater than ymax"
      else .ok [v0, v1, v2, v3] := by
  unfold check_extent
  rw [if_neg (by simp)]
  have hf : floatAll [some v0, some v1, some v2, some v3] = some [v0, v1, v2, v3] := rfl
  rw [hf]
  rfl

theorem check_extent_cases (fields : List (Option PyFloat)) :
    (∃ v0 v1 v2 v3 : PyFloat, check_extent fields = .ok [v0, v1, v2, v3]
        ∧ fields = [some v0, some v1, some v2, some v3])
      ∨ ∃ e, check_extent fields = .error e := by
  rcases fields with _ | ⟨o0, _ | ⟨o1, _ | ⟨o2, _ | ⟨o3, _ | ⟨o4, rest⟩⟩⟩⟩⟩
  · exact Or.inr ⟨_, check_extent_length [] (by simp)⟩
  · exact Or.inr ⟨_, check_extent_length [o0] (by simp)⟩
  · exact Or.inr ⟨_, check_extent_length [o0, o1] (by simp)⟩
  · exact Or.inr ⟨_, check_extent_length [o0, o1, o2] (by simp)⟩
  · rcases o0 with _ | v0
    · exact Or.inr ⟨_, check_extent_nonnum _ (by simp) rfl⟩
    rcases o1 with _ | v1
    · exact Or.inr ⟨_, check_extent_nonnum _ (by simp) rfl⟩
    rcases o2 with _ | v2
    · exact Or.inr ⟨_, check_extent_nonnum _ (by simp) rfl⟩
    rcases o3 with _ | v3
    · exact Or.inr ⟨_, check_extent_nonnum _ (by simp) rfl⟩
    have hs := check_extent_some v0 v1 v2 v3
    split_ifs at hs with h1 h2 h3 h4 h5 h6
    · exact Or.inr ⟨_, hs⟩
    · exact Or.inr ⟨_, hs⟩
    · exact Or.inr ⟨_, hs⟩
    · exact Or.inr ⟨_, hs⟩
    · exact Or.inr ⟨_, hs⟩
    · exact Or.inr ⟨_, hs⟩
    · exact Or.inl ⟨v0, v1, v2, v3, hs, rfl⟩
  · refine Or.inr ⟨_, check_extent_length _ ?_⟩
    simp

theorem passesRange_iff (v : PyFloat) (bound : ℚ) :
    (v.lt (.num (-bound)) || v.gt (.num bound)) = false ↔ passesRange v bound := by
  cases v with
  | nan => simp [PyFloat.lt, PyFloat.gt, passesRange]
  | inf => simp [PyFloat.lt, PyFloat.gt, passesRange]
  | neg_inf => simp [PyFloat.lt, PyFloat.gt, passesRange]
  | num q =>
    simp only [PyFloat.lt, PyFloat.gt, passesRange, Bool.or_eq_false_iff,
      decide_eq_false_iff_not, not_lt]
    constructor
    · rintro ⟨hq1, hq2⟩
      exact Or.inr ⟨q, rfl, hq1, hq2⟩
    · rintro (h | ⟨q', hq', h1, h2⟩)
      · exact absurd h (by simp)
      · obtain rfl : q = q' := by simpa using hq'
        exact ⟨h1, h2⟩

theorem passesRange_shape (v : PyFloat) (bound : ℚ) (h : passesRange v bound) :
    v = .nan ∨ ∃ q : ℚ, v = .num q := by
  rcases h with h | ⟨q, hq, -⟩
  · exact Or.inl h
  · exact Or.inr ⟨q, hq⟩

theorem passesOrder_iff (v w : PyFloat)
    (hv : v = .nan ∨ ∃ q : ℚ, v = .num q) (hw : w = .nan ∨ ∃ q : ℚ, w = .num q) :
    v.gt w = false ↔ passesOrder v w := by
  rcases hv with rfl | ⟨q, rfl⟩
  · simp [PyFloat.gt, passesOrder]
    rcases hw with rfl | ⟨r, rfl⟩ <;> simp [PyFloat.lt]
  · rcases hw with rfl | ⟨r, rfl⟩
    · simp [PyFloat.gt, PyFloat.lt, passesOrder]
    · simp only [PyFloat.gt, PyFloat.lt, passesOrder, decide_eq_false_iff_not, not_lt]
      constructor
      · intro h
        exact Or.inr (Or.inr ⟨q, r, rfl, rfl, h⟩)
      · rintro (h | h | ⟨q', r', hq', hr', hle⟩)
        · exact absurd h (by simp)
        · exact absurd h (by simp)
        · obtain rfl : q = q' := by simpa using hq'
          obtain rfl : r = r' := by simpa using hr'
          exact hle

/-- C8 counterexample: Python's `float('nan')` succeeds, and NaN defeats
every range and ordering check of `check_extent` — each of
`nan < -180`, `nan > 180`, `nan > x` evaluates false — so the input
`nan,0,0,0` is accepted and returned without an error although NaN lies
in no range; the claimed "raises if and only if the input is not four
numbers in range and order" is false on the code. -/
theorem C8_extent_counterexample :
    check_extent [some .nan, some (.num 0), some (.num 0), some (.num 0)]
        = .ok [.nan, .num 0, .num 0, .num 0]
    ∧ ¬ ∃ a b c d : ℚ,
        validExtentSpec [some PyFloat.nan, some (.num 0), some (.num 0), some (.num 0)]
          a b c d := by
  constructor
  · rfl
  · rintro ⟨a, b, c, d, hf, -⟩
    simp at hf

/-- C8 (amended): `check_extent` accepts exactly the inputs of four
`float()`-parseable fields in which every field is NaN or a number
within its range and each of the two ordered pairs is NaN-or-ordered —
NaN passes every check because every IEEE comparison against it is
false — and then returns the four parsed values in input order; four
in-range ordered *numbers* are always accepted (the spec's valid inputs,
second conjunct); every other input raises `ArgumentTypeError`, and a
failing validation aborts inside `argparse` with an empty effect trace:
no network activity, `main` never runs. -/
theorem C8_extent_validation (fields : List (Option PyFloat)) :
    (∀ v0 v1 v2 v3 : PyFloat,
        check_extent fields = .ok [v0, v1, v2, v3] ↔
          (fields = [some v0, some v1, some v2, some v3] ∧
            passesRange v0 180 ∧ passesRange v2 180 ∧
            passesRange v1 90 ∧ passesRange v3 90 ∧
            passesOrder v0 v2 ∧ passesOrder v1 v3))
    ∧ (∀ a b c d : ℚ, validExtentSpec fields a b c d →
        check_extent fields = .ok [.num a, .num b, .num c, .num d])
    ∧ ((∃ e, check_extent fields = .error e) ↔
        ¬ ∃ v0 v1 v2 v3 : PyFloat,
            fields = [some v0, some v1, some v2, some v3] ∧
            passesRange v0 180 ∧ passesRange v2 180 ∧
            passesRange v1 90 ∧ passesRange v3 90 ∧
            passesOrder v0 v2 ∧ passesOrder v1 v3)
    ∧ (∀ e, check_extent fields = .error e →
        ∀ resp choose, run_cli fields resp choose = ⟨[], .error .argError⟩) := by
  have hok_iff : ∀ v0 v1 v2 v3 : PyFloat,
      check_extent fields = .ok [v0, v1, v2, v3] ↔
        (fields = [some v0, some v1, some v2, some v3] ∧
          passesRange v0 180 ∧ passesRange v2 180 ∧
          passesRange v1 90 ∧ passesRange v3 90 ∧
          passesOrder v0 v2 ∧ passesOrder v1 v3) := by
    intro v0 v1 v2 v3
    constructor
    · intro hok
      rcases check_extent_cases fields with ⟨w0, w1, w2, w3, hok', hf⟩ | ⟨e, he⟩
      · rw [hok'] at hok
        have hl : ([w0, w1, w2, w3] : List PyFloat) = [v0, v1, v2, v3] := by
          injection hok
        obtain ⟨hw0, hw1, hw2, hw3⟩ : w0 = v0 ∧ w1 = v1 ∧ w2 = v2 ∧ w3 = v3 := by
          simpa using hl
        rw [hw0, hw1, hw2, hw3] at hok' hf
        subst hf
        rw [check_extent_some] at hok'
        split_ifs at hok' with h1 h2 h3 h4 h5 h6
        rw [Bool.not_eq_true] at h1 h2 h3 h4 h5 h6
        have hr0 := (passesRange_iff v0 180).mp h1
        have hr2 := (passesRange_iff v2 180).mp h2
        have hr1 := (passesRange_iff v1 90).mp h3
        have hr3 := (passesRange_iff v3 90).mp h4
        exact ⟨rfl, hr0, hr2, hr1, hr3,
          (passesOrder_iff v0 v2 (passesRange_shape v0 180 hr0)
            (passesRange_shape v2 180 hr2)).mp h5,
          (passesOrder_iff v1 v3 (passesRange_shape v1 90 hr1)
            (passesRange_shape v3 90 hr3)).mp h6⟩
      · rw [he] at hok
        exact absurd hok (by simp)
    · rintro ⟨rfl, hr0, hr2, hr1, hr3, ho02, ho13⟩
      have hb0 := (passesRange_iff v0 180).mpr hr0
      have hb2 := (passesRange_iff v2 180).mpr hr2
      have hb1 := (passesRange_iff v1 90).mpr hr1
      have hb3 := (passesRange_iff v3 90).mpr hr3
      have hc02 := (passesOrder_iff v0 v2 (passesRange_shape v0 180 hr0)
        (passesRange_shape v2 180 hr2)).mpr ho02
      have hc13 := (passesOrder_iff v1 v3 (passesRange_shape v1 90 hr1)
        (passesRange_shape v3 90 hr3)).mpr ho13
      rw [check_extent_some, if_neg (by simp [hb0]), if_neg (by simp [hb2]),
        if_neg (by simp [hb1]), if_neg (by simp [hb3]),
        if_neg (by simp [hc02]), if_neg (by simp [hc13])]
  refine ⟨hok_iff, ?_, ?_, ?_⟩
  · rintro a b c d ⟨rfl, ha1, ha2, hc1, hc2, hb1, hb2, hd1, hd2, hac, hbd⟩
    exact (hok_iff (.num a) (.num b) (.num c) (.num d)).mpr
      ⟨rfl, Or.inr ⟨a, rfl, ha1, ha2⟩, Or.inr ⟨c, rfl, hc1, hc2⟩,
        Or.inr ⟨b, rfl, hb1, hb2⟩, Or.inr ⟨d, rfl, hd1, hd2⟩,
        Or.inr (Or.inr ⟨a, c, rfl, rfl, hac⟩), Or.inr (Or.inr ⟨b, d, rfl, rfl, hbd⟩)⟩
  · constructor
    · rintro ⟨e, he⟩ ⟨v0, v1, v2, v3, hv⟩
      rw [(hok_iff v0 v1 v2 v3).mpr hv] at he
      exact absurd he (by simp)
    · intro hnv
      rcases check_extent_cases fields with ⟨v0, v1, v2, v3, hok, hf⟩ | ⟨e, he⟩
      · exact absurd ⟨v0, v1, v2, v3, (hok_iff v0 v1 v2 v3).mp hok⟩ hnv
      · exact ⟨e, he⟩
  · intro e he resp choose
    unfold run_cli
    rw [he]

/-- Witness for C8 at concrete inputs: the all-zero extent parses to its
four numbers, and an out-of-range xmin makes the whole run abort with an
empty effect trace. -/
theorem C8_extent_validation_witness :
    check_extent [some (PyFloat.num 0), some (.num 0), some (.num 0), some (.num 0)]
        = .ok [.num 0, .num 0, .num 0, .num 0] ∧
      run_cli [some (PyFloat.num 200), some (.num 0), some (.num 0), some (.num 0)]
          none (fun _ => []) = ⟨[], .error .argError⟩ :=
  ⟨(C8_extent_validation [some (.num 0), some (.num 0), some (.num 0), some (.num 0)]).2.1
      0 0 0 0
      ⟨rfl, by norm_num, by norm_num, by norm_num, by norm_num, by norm_num,
        by norm_num, by norm_num, by norm_num, le_refl 0, le_refl 0⟩,
    (C8_extent_validation
        [some (.num 200), some (.num 0), some (.num 0), some (.num 0)]).2.2.2
      "xmin must be between -180 and 180" rfl none (fun _ => [])⟩

end Tnm
